import Mathlib

/-
Verification of the line tokenizer, command parser, dispatcher, connection
loop and response writer of the go-dictd transport core (dictd/socket.go).

Strings are embedded as `List Char`; Go's byte/rune distinction is immaterial
here because every character the scanner branches on is ASCII.  Fallible Go
functions returning `(value, error)` become `Except String value`.
-/

set_option maxRecDepth 4000
set_option linter.dupNamespace false

deriving instance DecidableEq for Except

namespace GoDictd

/-- Modelled from the spec: the `Command` struct lives outside src/ (only its
construction site is in socket.go).  Per the spec it is an upper-cased verb
plus an ordered parameter list.  Field names follow the Go struct. -/
structure Command where
  Command : List Char
  Params : List (List Char)
deriving DecidableEq

/-- Modelled from the spec: the `Server` owns a mapping from command verb to
handler (handlers are abstract identifiers here) plus a name. -/
structure Server where
  Name : List Char
  handlers : List (List Char × Nat)
deriving DecidableEq

/-- Session state, from the `Session` struct in socket.go.  The textproto
connection is not part of the pure state; writes are modelled as returned
byte streams. -/
structure Session where
  MsgId : List Char
  Client : List Char
  DictServer : Server
  Options : List (List Char × Bool)
deriving DecidableEq

/-- Characters trimmed by `strings.Trim(el, " \t\r\n")` in `cleanup`, and by
the identical cutset `" \n\r\t"` in `Handle`. -/
def isTrimChar (c : Char) : Bool :=
  c = ' ' ∨ c = '\t' ∨ c = '\r' ∨ c = '\n'

/-- Embedding of `cleanup`: trim the cutset from both ends. -/
def cleanup (el : List Char) : List Char :=
  ((el.dropWhile isTrimChar).reverse.dropWhile isTrimChar).reverse

/-- Embedding of `consumeAtom`: scan to the first space; the token is
everything before it and the remainder is the rest (space included) run
through `cleanup`.  With no space the whole buffer is the token.  The Go
function's error result is always nil, so it is omitted. -/
def consumeAtom : List Char → List Char × List Char
  | [] => ([], [])
  | c :: rest =>
    if c = ' ' then ([], cleanup (c :: rest))
    else
      let p := consumeAtom rest
      (c :: p.1, p.2)

/-- Outcome of the quoted-token scan inside `consumeString`: the loop either
finds the unescaped closing quote (with the characters strictly before it and
strictly after it), falls off the end of the buffer, or hits the other quote
character unescaped. -/
inductive ScanOut where
  | closed (pre post : List Char)
  | ended
  | bad
deriving DecidableEq

/-- Prepend a consumed character to the pre-close part of a scan outcome. -/
def ScanOut.push (c : Char) : ScanOut → ScanOut
  | .closed pre post => .closed (c :: pre) post
  | o => o

/-- Embedding of the `for i, el := range buf` loop of `consumeString`.  The
Go switch checks, in order: the closing quote (case `rune(quote[0])`), a
backslash (which always sets the escape flag, via `continue`), and the two
quote characters (reached only for the non-matching one, an error when not
escaped); every other path clears the escape flag. -/
def scan (q : Char) : Bool → List Char → ScanOut
  | _, [] => .ended
  | esc, c :: rest =>
    if c = q then
      if esc then (scan q false rest).push c
      else .closed [] rest
    else if c = '\\' then (scan q true rest).push c
    else if c = '\'' ∨ c = '"' then
      if esc then (scan q false rest).push c
      else .bad
    else (scan q false rest).push c

/-- Embedding of `consumeString`.  On an unescaped closing quote the token is
`buf[:i]` with every backslash removed (`strings.Replace(buf[:i], "\\", "",
-1)`) and the remainder is `cleanup(buf[i+1:])`; at end of buffer the whole
buffer is returned verbatim with an empty remainder; an unescaped foreign
quote yields the error `"bad char"`. -/
def consumeString (q : Char) (buf : List Char) : Except String (List Char × List Char) :=
  match scan q false buf with
  | .closed pre post => .ok (pre.filter (fun c => !(c = '\\')), cleanup post)
  | .ended => .ok (buf, [])
  | .bad => .error "bad char"

/-- Fuel-indexed embedding of the `for line != ""` loop of `tokenizeLine`.
The remainder strictly shrinks on every iteration, so fuel `length + 1`
is always enough; the fuel-exhausted case is unreachable. -/
def tokenizeLineAux : Nat → List Char → Except String (List (List Char))
  | _, [] => .ok []
  | 0, _ :: _ => .ok []
  | fuel + 1, leader :: rest =>
    if leader = '"' ∨ leader = '\'' then
      match consumeString leader rest with
      | .error e => .error e
      | .ok (t, rem) =>
        match tokenizeLineAux fuel rem with
        | .error e => .error e
        | .ok ts => .ok (t :: ts)
    else
      match consumeAtom (leader :: rest) with
      | (t, rem) =>
        match tokenizeLineAux fuel rem with
        | .error e => .error e
        | .ok ts => .ok (t :: ts)

/-- Embedding of `tokenizeLine`: run the loop with sufficient fuel. -/
def tokenizeLine (line : List Char) : Except String (List (List Char)) :=
  tokenizeLineAux (line.length + 1) line

/-- Result of `parseLine`.  Go returns `(*Command, error)`; the unguarded
`tokens[0]` access panics when the token slice is empty, which is kept as a
distinct outcome. -/
inductive PResult where
  | ok (c : Command)
  | err (e : String)
  | panicked
deriving DecidableEq

/-- Embedding of `parseLine`: tokenize, propagate the error, otherwise build
the command from `strings.ToUpper(tokens[0])` and `tokens[1:]` (`Char.toUpper`
matches Go's per-rune upper-casing on the ASCII inputs of this protocol). -/
def parseLine (line : List Char) : PResult :=
  match tokenizeLine line with
  | .error e => .err e
  | .ok [] => .panicked
  | .ok (t :: ts) => .ok { Command := t.map Char.toUpper, Params := ts }

/-- Spec-side predicate, from the spec's wording for the quoted-token error:
scanning under the spec's escape discipline ("a backslash not itself escaped
sets the escape flag for exactly one following character", so an escaped
backslash is a literal and does not arm the flag), the token contains the
other quote character unescaped before the closing quote.  Used to compare
the spec's error condition with `consumeString`. -/
def specScanBad (q : Char) : Bool → List Char → Bool
  | _, [] => false
  | esc, c :: rest =>
    if c = q ∧ !esc then false
    else if c = '\\' ∧ !esc then specScanBad q true rest
    else if (c = '\'' ∨ c = '"') ∧ !esc then true
    else specScanBad q false rest

/-- Spec-side predicate, from the amended wording: under the discipline where
a character is escaped exactly when the immediately preceding character is a
backslash (every backslash arms the flag, even one that is itself escaped),
the buffer contains the other quote character unescaped before the closing
quote. -/
def codeScanBad (q : Char) : Bool → List Char → Bool
  | _, [] => false
  | esc, c :: rest =>
    if c = q ∧ !esc then false
    else if c = '\\' then codeScanBad q true rest
    else if (c = '\'' ∨ c = '"') ∧ !esc then true
    else codeScanBad q false rest

/-- Modelled from the spec: `Server.GetHandler` lives outside src/ (server.go);
per the spec it is the registry lookup `find(verb)` for the command's verb,
returning the handler or absence. -/
def GetHandler (server : Server) (command : Command) : Option Nat :=
  server.handlers.lookup command.Command

/-- One handler invocation observed during dispatch: either a registered
handler (by identifier) or the unknown-command fallback, each receiving a
command value. -/
inductive Invocation where
  | registered (h : Nat) (c : Command)
  | unknown (c : Command)
deriving DecidableEq

/-- Embedding of `handleCommand`: look the verb up, call exactly one of the
registered handler and `unknownCommandHandler` with `*command` (a copy of the
command value — Go passes the struct by value, so the callee cannot reach the
caller's variable).  The result records the invocation trace and the caller's
command value after dispatch. -/
def handleCommand (session : Session) (command : Command) : List Invocation × Command :=
  match GetHandler session.DictServer command with
  | none => ([Invocation.unknown command], command)
  | some h => ([Invocation.registered h command], command)

/-- One `proto.ReadLine()` outcome in the `Handle` loop. -/
inductive ReadResult where
  | line (s : List Char)
  | fail (e : List Char)
deriving DecidableEq

/-- What one iteration of the `Handle` loop does with a read outcome. -/
inductive LoopStep where
  | stop
  | skip
  | dispatch (c : Command)
  | crash
deriving DecidableEq

/-- Embedding of one iteration of the `for` loop in `Handle`: a read failure
returns from the loop; otherwise the line is trimmed, an empty line is
skipped, a parse error is logged and skipped, a parse panic would crash the
goroutine, and a parsed command is dispatched. -/
def handleStep (r : ReadResult) : LoopStep :=
  match r with
  | .fail _ => .stop
  | .line s =>
    let t := cleanup s
    if t = [] then .skip
    else
      match parseLine t with
      | .err _ => .skip
      | .panicked => .crash
      | .ok c => .dispatch c

/-- Embedding of the `Handle` loop over a finite script of reads: the
sequence of commands dispatched before the loop ends (by read failure, panic,
or exhaustion of the script). -/
def Handle : List ReadResult → List Command
  | [] => []
  | r :: rs =>
    match handleStep r with
    | .stop => []
    | .crash => []
    | .skip => Handle rs
    | .dispatch c => c :: Handle rs

/-- Embedding of `textproto.Writer.PrintfLine`: the formatted text followed
by CRLF. -/
def printfLine (s : List Char) : List Char := s ++ ['\r', '\n']

/-- States of `net/textproto`'s dot-stuffing writer. -/
inductive DotState where
  | begin
  | beginLine
  | cr
  | data
deriving DecidableEq

/-- One byte through the dot writer, mirroring `dotWriter.Write`: at the
start of a line a leading `.` is doubled and the byte is then handled as
data; in data state a lone `\n` gets a `\r` inserted before it and `\r`
moves to the CR state; after `\r`, a `\n` completes the line. -/
def dotStep (st : DotState) (c : Char) : List Char × DotState :=
  match st with
  | .begin | .beginLine =>
    let pre : List Char := if c = '.' then ['.'] else []
    if c = '\n' then (pre ++ ['\r', '\n'], .beginLine)
    else if c = '\r' then (pre ++ ['\r'], .cr)
    else (pre ++ [c], .data)
  | .data =>
    if c = '\n' then (['\r', '\n'], .beginLine)
    else if c = '\r' then (['\r'], .cr)
    else ([c], .data)
  | .cr =>
    if c = '\n' then (['\n'], .beginLine)
    else ([c], .data)

/-- Fold the dot writer over a payload. -/
def dotWrite (st : DotState) : List Char → List Char × DotState
  | [] => ([], st)
  | c :: rest =>
    ((dotStep st c).1 ++ (dotWrite (dotStep st c).2 rest).1,
      (dotWrite (dotStep st c).2 rest).2)

/-- Embedding of `dotWriter.Close`: terminate the current line if needed and
write the lone-dot terminator line. -/
def dotClose (st : DotState) : List Char :=
  match st with
  | .beginLine => ['.', '\r', '\n']
  | .cr => ['\n', '.', '\r', '\n']
  | _ => ['\r', '\n', '.', '\r', '\n']

/-- The byte stream produced by `DotWriter()` + `Write` + `Close` on a
payload. -/
def dotBlock (stream : List Char) : List Char :=
  (dotWrite DotState.begin stream).1 ++ dotClose (dotWrite DotState.begin stream).2

/-- First fixed MIME header line written by `WriteTextBlock`. -/
def contentTypeLine : List Char := "Content-type: text/plain; charset=utf-8".toList

/-- Second fixed MIME header line written by `WriteTextBlock`. -/
def contentEncLine : List Char := "Content-transfer-encoding: 8bit".toList

/-- Go map read `session.Options[key]` with the zero value `false` for a
missing key. -/
def optionsGet (opts : List (List Char × Bool)) (key : List Char) : Bool :=
  (opts.lookup key).getD false

/-- Embedding of `WriteTextBlock`: when the session's MIME option is true,
one `PrintfLine` call whose format string is the two header lines each
followed by `\n` (so the trailing CRLF of `PrintfLine` lands after the second
`\n`), then the dot-stuffed payload. -/
def WriteTextBlock (session : Session) (stream : List Char) : List Char :=
  (if optionsGet session.Options ("MIME".toList)
   then printfLine (contentTypeLine ++ '\n' :: contentEncLine ++ ['\n'])
   else []) ++ dotBlock stream

/-- Embedding of `WriteCode`: `PrintfLine("%d %s", code, message)`. -/
def WriteCode (code : Nat) (message : List Char) : List Char :=
  printfLine ((Nat.toDigits 10 code) ++ ' ' :: message)

/-- Split a byte stream at every `\n` (the separators are consumed; a
trailing `\n` leaves a final empty piece). -/
def splitNL : List Char → List (List Char)
  | [] => [[]]
  | c :: rest =>
    if c = '\n' then [] :: splitNL rest
    else
      match splitNL rest with
      | [] => [[c]]
      | p :: ps => (c :: p) :: ps

/-- Drop one trailing `\r` from a line, as a CRLF-tolerant line reader does. -/
def stripCR (l : List Char) : List Char :=
  match l.reverse with
  | '\r' :: r => r.reverse
  | _ => l

/-- The lines of a byte stream: split at `\n`, drop the empty piece left by
a final `\n`, and strip a trailing `\r` from each line. -/
def linesOf (s : List Char) : List (List Char) :=
  (if (splitNL s).getLast? = some [] then (splitNL s).dropLast else splitNL s).map stripCR

/-- Concrete server used by witnesses: one registered verb. -/
def sampleServer : Server :=
  { Name := "dict.example".toList, handlers := [("DEFINE".toList, 7)] }

/-- Concrete session over `sampleServer` with no options set. -/
def sampleSession : Session :=
  { MsgId := "1.0".toList, Client := [], DictServer := sampleServer, Options := [] }

/-- Concrete session whose MIME option is enabled. -/
def mimeSession : Session :=
  { MsgId := "1.0".toList, Client := [], DictServer := sampleServer,
    Options := [("MIME".toList, true)] }

/- ### Helper lemmas about the quoted-token scan -/

theorem push_eq_bad (c : Char) (o : ScanOut) : o.push c = ScanOut.bad ↔ o = ScanOut.bad := by
  cases o <;> simp [ScanOut.push]

theorem push_closed_elim {c : Char} {o : ScanOut} {pre post : List Char}
    (h : o.push c = ScanOut.closed pre post) :
    ∃ pre', pre = c :: pre' ∧ o = ScanOut.closed pre' post := by
  cases o with
  | closed a b =>
    simp [ScanOut.push] at h
    exact ⟨a, h.1.symm, by rw [h.2]⟩
  | ended => simp [ScanOut.push] at h
  | bad => simp [ScanOut.push] at h

theorem scan_closed_decomp (q : Char) :
    ∀ (buf : List Char) (esc : Bool) (pre post : List Char),
      scan q esc buf = ScanOut.closed pre post → buf = pre ++ q :: post := by
  intro buf
  induction buf with
  | nil => intro esc pre post h; simp [scan] at h
  | cons c rest ih =>
    intro esc pre post h
    rw [scan] at h
    by_cases hq : c = q
    · rw [if_pos hq] at h
      by_cases he : esc = true
      · rw [if_pos he] at h
        obtain ⟨pre', hpre, hsc⟩ := push_closed_elim h
        rw [hpre, ih false pre' post hsc, hq]
        rfl
      · rw [if_neg he] at h
        simp at h
        rw [h.1, h.2, hq]
        rfl
    · rw [if_neg hq] at h
      by_cases hb : c = '\\'
      · rw [if_pos hb] at h
        obtain ⟨pre', hpre, hsc⟩ := push_closed_elim h
        rw [hpre, ih true pre' post hsc]
        rfl
      · rw [if_neg hb] at h
        by_cases hqq : c = '\'' ∨ c = '"'
        · rw [if_pos hqq] at h
          by_cases he : esc = true
          · rw [if_pos he] at h
            obtain ⟨pre', hpre, hsc⟩ := push_closed_elim h
            rw [hpre, ih false pre' post hsc]
            rfl
          · rw [if_neg he] at h
            simp at h
        · rw [if_neg hqq] at h
          obtain ⟨pre', hpre, hsc⟩ := push_closed_elim h
          rw [hpre, ih false pre' post hsc]
          rfl

theorem scan_bad_iff (q : Char) (hq : q = '"' ∨ q = '\'') :
    ∀ (buf : List Char) (esc : Bool),
      scan q esc buf = ScanOut.bad ↔ codeScanBad q esc buf = true := by
  intro buf
  induction buf with
  | nil => intro esc; simp [scan, codeScanBad]
  | cons c rest ih =>
    intro esc
    rw [scan, codeScanBad]
    by_cases hcq : c = q
    · have hnb : ¬(c = '\\') := by rcases hq with h | h <;> simp [hcq, h]
      rw [if_pos hcq]
      by_cases he : esc = true
      · have h1 : ¬(c = q ∧ !esc) := by simp [he]
        have h2 : ¬((c = '\'' ∨ c = '"') ∧ !esc) := by simp [he]
        rw [if_pos he, if_neg h1, if_neg hnb, if_neg h2, push_eq_bad]
        exact ih false
      · have he' : esc = false := by simp at he; exact he
        rw [if_neg he, if_pos (by simp [hcq, he'])]
        simp
    · rw [if_neg hcq]
      have h1 : ¬(c = q ∧ !esc) := by simp [hcq]
      rw [if_neg h1]
      by_cases hb : c = '\\'
      · rw [if_pos hb, if_pos hb, push_eq_bad]
        exact ih true
      · rw [if_neg hb, if_neg hb]
        by_cases hqq : c = '\'' ∨ c = '"'
        · rw [if_pos hqq]
          by_cases he : esc = true
          · have h2 : ¬((c = '\'' ∨ c = '"') ∧ !esc) := by simp [he]
            rw [if_pos he, if_neg h2, push_eq_bad]
            exact ih false
          · have he' : esc = false := by simp at he; exact he
            rw [if_neg he, if_pos (by simp [hqq, he'])]
            simp
        · have h2 : ¬((c = '\'' ∨ c = '"') ∧ !esc) := by simp [hqq]
          rw [if_neg hqq, if_neg h2, push_eq_bad]
          exact ih false

/- ### Claim C1: backslash escaping in quoted tokens -/

/-- C1 counterexample.  The claim says an escaped backslash (backslash-
backslash) yields a literal backslash in the emitted token and does not
escape the character after it.  On `"a\\b"` the code removes both
backslashes (token `ab`, not `a\b`), and on `"a\\"b"` the quote following
backslash-backslash is still escaped, so the whole line is one token `a"b`
instead of the claim's `a\` followed by `b`. -/
theorem consumeString_escape_cex :
    consumeString '"' ("a\\\\b\"".toList) = Except.ok ("ab".toList, []) ∧
    consumeString '"' ("a\\\\b\"".toList) ≠ Except.ok ("a\\b".toList, []) ∧
    tokenizeLine ("\"a\\\\\"b\"".toList) = Except.ok ["a\"b".toList] ∧
    tokenizeLine ("\"a\\\\\"b\"".toList) ≠ Except.ok ["a\\".toList, "b".toList] := by
  decide

/-- C1 amended: every backslash (escaped or not) arms the escape flag for
the following character, and an emitted token is either the whole remaining
buffer verbatim (unterminated quote) or contains no backslash at all (every
backslash of a closed quoted token is removed). -/
theorem consumeString_escape_amended (q : Char) (buf t r : List Char)
    (hq : q = '"' ∨ q = '\'') :
    (consumeString q buf = Except.ok (t, r) → t = buf ∨ '\\' ∉ t) ∧
    (∀ esc : Bool, scan q esc ('\\' :: buf) = (scan q true buf).push '\\') := by
  constructor
  · intro h
    unfold consumeString at h
    rcases hsc : scan q false buf with ⟨pre, post⟩ | _ | _ <;> rw [hsc] at h
    · right
      have ht : t = pre.filter (fun c => !(c = '\\')) := by
        simp at h
        exact h.1.symm
      rw [ht]
      intro hmem
      rcases List.mem_filter.mp hmem with ⟨_, hdec⟩
      simp at hdec
    · left
      simp at h
      exact h.1.symm
    · simp at h
  · intro esc
    have hnq : ¬(('\\' : Char) = q) := by rcases hq with h | h <;> simp [h]
    rw [scan, if_neg hnq, if_pos rfl]

/-- C1 amended witness at a concrete input. -/
theorem consumeString_escape_amended_witness :
    ('"' = '"' ∨ '"' = '\'') ∧
    ("'x".toList = "\\\\'x\"".toList ∨ '\\' ∉ "'x".toList) :=
  ⟨Or.inl rfl,
   (consumeString_escape_amended '"' ("\\\\'x\"".toList) ("'x".toList) [] (Or.inl rfl)).1
     (by decide)⟩

/- ### Claim C2: the lexical-error condition -/

/-- C2 counterexample.  Under the spec's own escape discipline (an escaped
backslash is a literal and does not escape the next character), the buffer
of the quoted token in the line `"\\'x"` contains the other quote character
`'` unescaped before the closing `"`; the claim therefore says tokenization
fails, but the code accepts the line (the second backslash re-arms the
escape flag, so the `'` is treated as escaped). -/
theorem consumeString_badchar_cex :
    specScanBad '"' false ("\\\\'x\"".toList) = true ∧
    consumeString '"' ("\\\\'x\"".toList) = Except.ok ("'x".toList, []) ∧
    tokenizeLine ("\"\\\\'x\"".toList) = Except.ok ["'x".toList] := by
  decide

/-- C2 amended: with "escaped" meaning "immediately preceded by a backslash"
(the code's discipline, where every backslash arms the flag), `consumeString`
fails exactly when the buffer contains the other quote character unescaped
before the closing quote, and the error is the lexical error `bad char`. -/
theorem consumeString_error_iff (q : Char) (buf : List Char)
    (hq : q = '"' ∨ q = '\'') :
    ((∃ e, consumeString q buf = Except.error e) ↔ codeScanBad q false buf = true) ∧
    (∀ e, consumeString q buf = Except.error e → e = "bad char") := by
  constructor
  · rw [← scan_bad_iff q hq buf false]
    unfold consumeString
    rcases hsc : scan q false buf with ⟨pre, post⟩ | _ | _ <;> simp [hsc]
  · intro e h
    unfold consumeString at h
    rcases hsc : scan q false buf with ⟨pre, post⟩ | _ | _ <;> rw [hsc] at h <;> simp at h
    exact h.symm

/-- C2 amended witness at a concrete input. -/
theorem consumeString_error_iff_witness :
    ((∃ e, consumeString '"' ("it is'".toList) = Except.error e) ↔
      codeScanBad '"' false ("it is'".toList) = true) :=
  (consumeString_error_iff '"' ("it is'".toList) (Or.inl rfl)).1

/- ### Claim C3: unterminated quoted token is returned leniently -/

/-- C3: when the quoted-token scan reaches the end of the buffer without an
unescaped closing quote (and without a lexical error), `consumeString`
returns the whole remaining buffer as the token with no error, and the
tokenizer finishes with that token as the last one and an empty remainder. -/
theorem consumeString_unterminated (q : Char) (buf : List Char)
    (hq : q = '"' ∨ q = '\'') (hend : scan q false buf = ScanOut.ended) :
    consumeString q buf = Except.ok (buf, []) ∧
    tokenizeLine (q :: buf) = Except.ok [buf] := by
  have h1 : consumeString q buf = Except.ok (buf, []) := by
    unfold consumeString
    rw [hend]
  refine ⟨h1, ?_⟩
  show tokenizeLineAux (buf.length + 1 + 1) (q :: buf) = Except.ok [buf]
  rw [tokenizeLineAux, if_pos hq, h1]
  simp [tokenizeLineAux]

/-- C3 witness at a concrete input. -/
theorem consumeString_unterminated_witness :
    consumeString '"' ("hello wor".toList) = Except.ok ("hello wor".toList, []) ∧
    tokenizeLine ('"' :: "hello wor".toList) = Except.ok ["hello wor".toList] :=
  consumeString_unterminated '"' ("hello wor".toList) (Or.inl rfl) (by decide)

/- ### Claim C4: tokens retain no backslashes or quotes -/

/-- C4 counterexample.  The line `"a\b` (opening quote never closed)
tokenizes successfully, and its single token retains the unescaped
backslash verbatim, contradicting the claimed invariant. -/
theorem tokenizeLine_backslash_cex :
    tokenizeLine ("\"a\\b".toList) = Except.ok ["a\\b".toList] ∧
    '\\' ∈ "a\\b".toList := by
  decide

/-- C4 amended: the invariant holds for quoted tokens whose closing quote is
present: the emitted token is the backslash-free filtering of the characters
strictly between the opening and closing quotes, so it contains no backslash
and neither surrounding quote; an unterminated quoted token is returned
verbatim and may retain backslashes. -/
theorem consumeString_closed_clean (q : Char) (buf pre post : List Char)
    (h : scan q false buf = ScanOut.closed pre post) :
    consumeString q buf =
      Except.ok (pre.filter (fun c => !(c = '\\')), cleanup post) ∧
    '\\' ∉ pre.filter (fun c => !(c = '\\')) ∧
    buf = pre ++ q :: post := by
  refine ⟨by unfold consumeString; rw [h], ?_, scan_closed_decomp q buf false pre post h⟩
  intro hmem
  rcases List.mem_filter.mp hmem with ⟨_, hdec⟩
  simp at hdec

/-- C4 amended witness at a concrete input. -/
theorem consumeString_closed_clean_witness :
    consumeString '"' ("a\\\"x\"after".toList) =
      Except.ok ("a\"x".toList, "after".toList) ∧
    '\\' ∉ ("a\\\"x".toList).filter (fun c => !(c = '\\')) ∧
    "a\\\"x\"after".toList = "a\\\"x".toList ++ '"' :: "after".toList := by
  have h := consumeString_closed_clean '"' ("a\\\"x\"after".toList)
    ("a\\\"x".toList) ("after".toList) (by decide)
  exact ⟨h.1, h.2.1, h.2.2⟩

/- ### Helper lemmas about `tokenizeLine` and `parseLine` -/

theorem tokenizeLine_nil : tokenizeLine [] = Except.ok [] := rfl

theorem tokenizeLine_ok_nil (l : List Char) (h : tokenizeLine l = Except.ok []) :
    l = [] := by
  cases l with
  | nil => rfl
  | cons c rest =>
    exfalso
    have h' : tokenizeLineAux (rest.length + 1 + 1) (c :: rest) = Except.ok [] := h
    rw [tokenizeLineAux] at h'
    by_cases hlead : c = '"' ∨ c = '\''
    · rw [if_pos hlead] at h'
      rcases hcs : consumeString c rest with e | ⟨t, rem⟩ <;> rw [hcs] at h'
      · simp at h'
      · rcases haux : tokenizeLineAux (rest.length + 1) rem with e | ts <;>
          simp [haux] at h'
    · rw [if_neg hlead] at h'
      rcases haux : tokenizeLineAux (rest.length + 1) (consumeAtom (c :: rest)).2 with e | ts
      · simp [haux] at h'
      · simp [haux] at h'

theorem parseLine_panicked (l : List Char) (h : parseLine l = PResult.panicked) :
    l = [] := by
  unfold parseLine at h
  rcases htok : tokenizeLine l with e | ts <;> rw [htok] at h
  · simp at h
  · cases ts with
    | nil => exact tokenizeLine_ok_nil l htok
    | cons a as => simp at h

/- ### Claim C5: the parser over the tokenizer -/

/-- C5: when tokenization succeeds with a non-empty token sequence, parsing
yields the command whose verb is the first token upper-cased and whose
parameters are exactly the remaining tokens in order; parsing returns an
error exactly when tokenization does, and it is the tokenizer's error
unchanged. -/
theorem parseLine_spec (line t : List Char) (ts : List (List Char)) :
    (tokenizeLine line = Except.ok (t :: ts) →
      parseLine line = PResult.ok { Command := t.map Char.toUpper, Params := ts }) ∧
    (∀ e, parseLine line = PResult.err e ↔ tokenizeLine line = Except.error e) := by
  constructor
  · intro h
    unfold parseLine
    rw [h]
  · intro e
    unfold parseLine
    rcases htok : tokenizeLine line with e' | ts'
    · simp
    · cases ts' with
      | nil => simp
      | cons a as => simp

/-- C5 witness: the spec's own example line. -/
theorem parseLine_spec_witness :
    parseLine ("show server".toList) =
      PResult.ok { Command := "SHOW".toList, Params := ["server".toList] } :=
  (parseLine_spec ("show server".toList) ("show".toList) ["server".toList]).1 (by decide)

/- ### Claim C9: the tokenizer's concrete examples -/

/-- C9: the spec's concrete tokenizer examples: plain atoms, a double-quoted
token containing a space, and an apostrophe inside an atom that does not
begin with a quote. -/
theorem tokenizeLine_examples :
    tokenizeLine ("DEFINE wn hello".toList) =
      Except.ok ["DEFINE".toList, "wn".toList, "hello".toList] ∧
    tokenizeLine ("DEFINE wn \"hello world\"".toList) =
      Except.ok ["DEFINE".toList, "wn".toList, "hello world".toList] ∧
    tokenizeLine ("it's".toList) = Except.ok ["it's".toList] := by
  decide

/- ### Claim C10: the parser's first-token access is in bounds -/

/-- C10: a line that is non-empty after trimming and tokenizes successfully
yields at least one token, so the parser's unguarded first-token access is
in bounds there; the out-of-bounds access (panic) is reachable only when
tokenization yields zero tokens, i.e. only for the empty line. -/
theorem tokenizeLine_nonempty_safe (line : List Char) :
    (cleanup line ≠ [] → ∀ ts, tokenizeLine (cleanup line) = Except.ok ts → ts ≠ []) ∧
    (parseLine line = PResult.panicked → line = []) := by
  constructor
  · intro hne ts h hnil
    rw [hnil] at h
    exact hne (tokenizeLine_ok_nil _ h)
  · exact parseLine_panicked line

/-- C10 witness at a concrete input (and the panic case at the empty line). -/
theorem tokenizeLine_nonempty_safe_witness :
    ([['a']] : List (List Char)) ≠ [] ∧ ([] : List Char) = [] :=
  ⟨(tokenizeLine_nonempty_safe [' ', 'a']).1 (by decide) [['a']] (by decide),
   (tokenizeLine_nonempty_safe []).2 (by decide)⟩

/- ### Claim C6: dispatch routes to exactly one handler -/

/-- C6: dispatch invokes exactly one handler exactly once — the registered
handler when the verb lookup succeeds, the unknown-command fallback when it
fails — the invoked handler receives the command value, and the caller's
command value is unchanged after dispatch (Go passes `*command` by value). -/
theorem handleCommand_dispatch (session : Session) (command : Command) :
    ((handleCommand session command).1.length = 1) ∧
    (∀ h, GetHandler session.DictServer command = some h →
      handleCommand session command = ([Invocation.registered h command], command)) ∧
    (GetHandler session.DictServer command = none →
      handleCommand session command = ([Invocation.unknown command], command)) ∧
    ((handleCommand session command).2 = command) := by
  unfold handleCommand
  rcases hG : GetHandler session.DictServer command with _ | h <;> simp [hG]

/-- C6 witness: a registered verb and an unregistered verb on the sample
server. -/
theorem handleCommand_dispatch_witness :
    handleCommand sampleSession { Command := "DEFINE".toList, Params := [] } =
      ([Invocation.registered 7 { Command := "DEFINE".toList, Params := [] }],
        { Command := "DEFINE".toList, Params := [] }) ∧
    handleCommand sampleSession { Command := "NOPE".toList, Params := [] } =
      ([Invocation.unknown { Command := "NOPE".toList, Params := [] }],
        { Command := "NOPE".toList, Params := [] }) :=
  ⟨(handleCommand_dispatch sampleSession
      { Command := "DEFINE".toList, Params := [] }).2.1 7 (by decide),
   (handleCommand_dispatch sampleSession
      { Command := "NOPE".toList, Params := [] }).2.2.1 (by decide)⟩

/- ### Claim C7: the connection loop -/

theorem handleStep_ne_crash (r : ReadResult) : handleStep r ≠ LoopStep.crash := by
  cases r with
  | fail e => simp [handleStep]
  | line s =>
    unfold handleStep
    by_cases hs : cleanup s = []
    · simp [hs]
    · simp only [hs, if_neg, ite_false]
      rcases hp : parseLine (cleanup s) with c | msg | _ <;> simp [hp]
      exact hs (parseLine_panicked _ hp)

/-- C7: one loop iteration returns (terminates the loop) exactly on a read
failure; a failed read dispatches nothing (the finite-script loop run ends
with no further command); a line that trims to empty, and a line whose parse
fails, are skipped and do not terminate the loop; and no iteration crashes. -/
theorem handleStep_loop_spec (r : ReadResult) (rs : List ReadResult) (s e : List Char) :
    (handleStep r = LoopStep.stop ↔ ∃ msg, r = ReadResult.fail msg) ∧
    handleStep r ≠ LoopStep.crash ∧
    Handle (ReadResult.fail e :: rs) = [] ∧
    (cleanup s = [] → handleStep (ReadResult.line s) = LoopStep.skip) ∧
    (∀ msg, parseLine (cleanup s) = PResult.err msg →
      handleStep (ReadResult.line s) = LoopStep.skip) := by
  refine ⟨?_, handleStep_ne_crash r, ?_, ?_, ?_⟩
  · constructor
    · intro h
      cases r with
      | fail msg => exact ⟨msg, rfl⟩
      | line s' =>
        exfalso
        revert h
        unfold handleStep
        by_cases hs : cleanup s' = []
        · simp [hs]
        · simp only [hs, ite_false]
          rcases hp : parseLine (cleanup s') with c | msg | _ <;> simp
    · rintro ⟨msg, rfl⟩
      rfl
  · show Handle (ReadResult.fail e :: rs) = []
    rfl
  · intro hs
    simp [handleStep, hs]
  · intro msg hp
    by_cases hs : cleanup s = []
    · simp [handleStep, hs]
    · simp [handleStep, hs, hp]

/-- C7 witness: a blank line and a lexically bad line are both skipped. -/
theorem handleStep_loop_spec_witness :
    handleStep (ReadResult.line [' ']) = LoopStep.skip ∧
    handleStep (ReadResult.line ("\"a'\"".toList)) = LoopStep.skip :=
  ⟨(handleStep_loop_spec (ReadResult.line [' ']) [] [' '] []).2.2.2.1 (by decide),
   (handleStep_loop_spec (ReadResult.line ("\"a'\"".toList)) [] ("\"a'\"".toList) []).2.2.2.2
     "bad char" (by decide)⟩

/- ### Helper lemmas about line splitting and the dot writer -/

theorem splitNL_ne_nil (l : List Char) : splitNL l ≠ [] := by
  cases l with
  | nil => simp [splitNL]
  | cons c rest =>
    rw [splitNL]
    by_cases hc : c = '\n'
    · simp [hc]
    · rw [if_neg hc]
      rcases h : splitNL rest with _ | ⟨p, ps⟩ <;> simp

theorem splitNL_no_nl_append (xs : List Char) :
    ∀ rest : List Char, '\n' ∉ xs →
      splitNL (xs ++ '\n' :: rest) = xs :: splitNL rest := by
  induction xs with
  | nil => intro rest _; simp [splitNL]
  | cons c xs ih =>
    intro rest h
    have hc : ¬(c = '\n') := fun hcc => h (by rw [hcc]; exact List.mem_cons_self _ _)
    have hxs : '\n' ∉ xs := fun hm => h (List.mem_cons_of_mem _ hm)
    rw [List.cons_append, splitNL, if_neg hc, ih rest hxs]

theorem splitNL_append_nl_ex (ys : List Char) :
    ∀ zs : List Char, ∃ f0 frest,
      splitNL (ys ++ '\n' :: zs) = (f0 :: frest) ++ splitNL zs := by
  induction ys with
  | nil => intro zs; exact ⟨[], [], by simp [splitNL]⟩
  | cons c ys ih =>
    intro zs
    obtain ⟨f0, fr, hh⟩ := ih zs
    by_cases hc : c = '\n'
    · refine ⟨[], f0 :: fr, ?_⟩
      rw [List.cons_append, splitNL, if_pos hc, hh]
      simp
    · refine ⟨c :: f0, fr, ?_⟩
      rw [List.cons_append, splitNL, if_neg hc, hh]
      rcases hz : splitNL zs with _ | ⟨z0, zr⟩
      · exact absurd hz (splitNL_ne_nil zs)
      · simp

theorem linesOf_dotline_last (ys : List Char) :
    (linesOf (ys ++ '\n' :: ['.', '\r', '\n'])).getLast? = some ['.'] := by
  obtain ⟨f0, fr, hh⟩ := splitNL_append_nl_ex ys ['.', '\r', '\n']
  have hz : splitNL ['.', '\r', '\n'] = [['.', '\r'], []] := by decide
  unfold linesOf
  rw [hh, hz]
  have hlast : ((f0 :: fr) ++ [['.', '\r'], []]).getLast? = some [] := by
    rw [List.getLast?_append_of_ne_nil _ (by simp)]
    rfl
  rw [if_pos hlast]
  have hdrop : ((f0 :: fr) ++ [['.', '\r'], []]).dropLast =
      (f0 :: fr) ++ [['.', '\r']] := by
    have h2 : (f0 :: fr) ++ [['.', '\r'], []] =
        ((f0 :: fr) ++ [['.', '\r']]) ++ [([] : List Char)] := by simp
    rw [h2, List.dropLast_concat]
  rw [hdrop, List.map_append]
  rw [List.getLast?_append_of_ne_nil _ (by simp)]
  decide

theorem dotStep_beginLine (st : DotState) (c : Char)
    (h : (dotStep st c).2 = DotState.beginLine) :
    ∃ ys, (dotStep st c).1 = ys ++ ['\n'] := by
  cases st with
  | begin =>
    by_cases hn : c = '\n'
    · exact ⟨['\r'], by simp [dotStep, hn]⟩
    · by_cases hr : c = '\r' <;> simp [dotStep, hn, hr] at h
  | beginLine =>
    by_cases hn : c = '\n'
    · exact ⟨['\r'], by simp [dotStep, hn]⟩
    · by_cases hr : c = '\r' <;> simp [dotStep, hn, hr] at h
  | data =>
    by_cases hn : c = '\n'
    · exact ⟨['\r'], by simp [dotStep, hn]⟩
    · by_cases hr : c = '\r' <;> simp [dotStep, hn, hr] at h
  | cr =>
    by_cases hn : c = '\n'
    · exact ⟨[], by simp [dotStep, hn]⟩
    · simp [dotStep, hn] at h

theorem dotWrite_beginLine (cs : List Char) :
    ∀ (st : DotState) (out : List Char),
      dotWrite st cs = (out, DotState.beginLine) →
      (out = [] ∧ st = DotState.beginLine) ∨ ∃ ys, out = ys ++ ['\n'] := by
  induction cs with
  | nil =>
    intro st out h
    rw [dotWrite, Prod.mk.injEq] at h
    exact Or.inl ⟨h.1.symm, h.2⟩
  | cons c rest ih =>
    intro st out h
    rw [dotWrite] at h
    rcases hw : dotWrite (dotStep st c).2 rest with ⟨out1, st2⟩
    rw [hw, Prod.mk.injEq] at h
    have hst2 : st2 = DotState.beginLine := h.2
    have hout : (dotStep st c).1 ++ out1 = out := h.1
    rcases ih (dotStep st c).2 out1 (by rw [hw, hst2]) with ⟨h1, h2⟩ | ⟨ys, hys⟩
    · obtain ⟨ys, hys⟩ := dotStep_beginLine st c h2
      exact Or.inr ⟨ys, by rw [← hout, h1, hys]; simp⟩
    · exact Or.inr ⟨(dotStep st c).1 ++ ys, by rw [← hout, hys]; simp⟩

theorem dotBlock_decomp (stream : List Char) :
    ∃ ys, dotBlock stream = ys ++ '\n' :: ['.', '\r', '\n'] := by
  unfold dotBlock
  rcases hw : dotWrite DotState.begin stream with ⟨out, st⟩
  cases st with
  | beginLine =>
    rcases dotWrite_beginLine stream DotState.begin out hw with ⟨_, h2⟩ | ⟨ys, hys⟩
    · exact absurd h2 (by simp)
    · exact ⟨ys, by rw [hys]; simp [dotClose]⟩
  | cr => exact ⟨out, by simp [dotClose]⟩
  | begin => exact ⟨out ++ ['\r'], by simp [dotClose]⟩
  | data => exact ⟨out ++ ['\r'], by simp [dotClose]⟩

theorem linesOf_header_append (rest : List Char) :
    linesOf (printfLine (contentTypeLine ++ '\n' :: contentEncLine ++ ['\n']) ++ rest) =
      contentTypeLine :: contentEncLine :: [] :: linesOf rest := by
  have hct : '\n' ∉ contentTypeLine := by decide
  have hce : '\n' ∉ contentEncLine := by decide
  have hs1 : stripCR contentTypeLine = contentTypeLine := by decide
  have hs2 : stripCR contentEncLine = contentEncLine := by decide
  have hs3 : stripCR ['\r'] = ([] : List Char) := by decide
  have h1 : printfLine (contentTypeLine ++ '\n' :: contentEncLine ++ ['\n']) ++ rest =
      contentTypeLine ++ '\n' :: (contentEncLine ++ '\n' :: ('\r' :: '\n' :: rest)) := by
    simp [printfLine]
  have h3 : splitNL ('\r' :: '\n' :: rest) = ['\r'] :: splitNL rest := by
    rw [splitNL, if_neg (by decide), splitNL, if_pos rfl]
  rw [h1]
  unfold linesOf
  rw [splitNL_no_nl_append _ _ hct, splitNL_no_nl_append _ _ hce, h3]
  rcases hsr : splitNL rest with _ | ⟨s0, sr⟩
  · exact absurd hsr (splitNL_ne_nil rest)
  rw [List.getLast?_cons_cons, List.getLast?_cons_cons, List.getLast?_cons_cons]
  by_cases hcond : (s0 :: sr).getLast? = some []
  · rw [if_pos hcond, if_pos hcond]
    simp [hs1, hs2, hs3, List.dropLast]
  · rw [if_neg hcond, if_neg hcond]
    simp [hs1, hs2, hs3]

/- ### Claim C8: the MIME header block of `WriteTextBlock` -/

/-- C8 counterexample.  With MIME enabled the writer does not emit exactly
the two fixed header lines before the dot-stuffed payload: the trailing
`\n` inside the single `PrintfLine` format string, followed by the CRLF
that `PrintfLine` appends, produces an additional empty line between the
headers and the payload. -/
theorem writeTextBlock_header_cex :
    linesOf (WriteTextBlock mimeSession ['x']) =
      [contentTypeLine, contentEncLine, [], ['x'], ['.']] ∧
    linesOf (WriteTextBlock mimeSession ['x']) ≠
      contentTypeLine :: contentEncLine :: linesOf (WriteTextBlock sampleSession ['x']) := by
  decide

/-- C8 amended: the block is the two fixed header lines followed by one
empty separator line, then the dot-stuffed payload, exactly when the
session's MIME option is true (with MIME false, only the dot-stuffed
payload); and in both cases the block's last line is the lone `.`
terminator. -/
theorem writeTextBlock_lines (session : Session) (stream : List Char) :
    linesOf (WriteTextBlock session stream) =
      (if optionsGet session.Options ("MIME".toList)
       then [contentTypeLine, contentEncLine, []] else []) ++ linesOf (dotBlock stream) ∧
    (linesOf (dotBlock stream)).getLast? = some ['.'] := by
  constructor
  · unfold WriteTextBlock
    by_cases hm : optionsGet session.Options ("MIME".toList)
    · rw [if_pos hm, if_pos hm]
      exact linesOf_header_append (dotBlock stream)
    · rw [if_neg hm, if_neg hm]
      simp
  · obtain ⟨ys, hys⟩ := dotBlock_decomp stream
    rw [hys]
    exact linesOf_dotline_last ys

end GoDictd
